import Mathlib

/-!
Verification development for the postgres-s3-backups-restore service.

The TypeScript sources (src/backup.ts, src/util.ts / restore, src/index.ts,
src/env.ts, src/logger.ts) are shallowly embedded below.  External effects
(the pg_dump / gzip / gunzip / pg_restore subprocesses, the S3 client, and
the filesystem unlink call) are modelled by explicit oracle records that
fix the outcome of each external call of a single pipeline run, and by an
explicit file-system state (the set of paths existing on disk) together
with a trace of the S3 requests issued and the scratch files allocated.
-/

namespace PgS3

/-! ## Generic string helpers (JavaScript string semantics on `List Char`) -/

/-- Substring test, modelling the JavaScript `String.prototype.includes`. -/
def hasSubstr (pat : List Char) : List Char → Bool
  | [] => pat.isEmpty
  | c :: cs => pat.isPrefixOf (c :: cs) || hasSubstr pat cs

/-- `s.includes(sub)` on Lean strings. -/
def strIncludes (s sub : String) : Bool := hasSubstr sub.data s.data

/-- `s.startsWith(p)` on Lean strings. -/
def strStarts (s p : String) : Bool := p.data.isPrefixOf s.data

/-- The suffix of `l` after the last occurrence of `c`; `l` itself when `c`
does not occur.  Used to model `path.basename` and authority splitting. -/
def afterLast (c : Char) (l : List Char) : List Char :=
  (l.reverse.takeWhile (fun d => d != c)).reverse

/-- Modelling node `path.basename`: the part after the last slash. -/
def basename (s : String) : String := ⟨afterLast '/' s.data⟩

/-- Replace the first occurrence of `pat` by `rep`, modelling the JavaScript
`String.prototype.replace` with a plain string pattern. -/
def replaceFirstChars : List Char → List Char → List Char → List Char
  | [], _, _ => []
  | c :: cs, pat, rep =>
    if pat.isPrefixOf (c :: cs) then rep ++ (c :: cs).drop pat.length
    else c :: replaceFirstChars cs pat rep

/-- `s.replace(pat, rep)` (first occurrence only) on Lean strings. -/
def replaceFirstStr (s pat rep : String) : String :=
  ⟨replaceFirstChars s.data pat.data rep.data⟩

/-! ## Configuration (src/env.ts)

Fields keep the environment variable names of `env.ts` except
`BACKUP_FILE_PFX`, which models the variable `BACKUP_FILE_PREFIX` of the
source under a shortened Lean name.  Empty strings model unset optional
variables, exactly as `envsafe` defaults them to `''` in the source, and
JavaScript truthiness tests on them become `≠ ""` tests. -/

structure Env where
  MODE : String
  AWS_S3_BUCKET : String
  BACKUP_FILE_PFX : String
  BUCKET_SUBFOLDER : String
  RESTORE_DATABASE_URL : String
  RESTORE_FILE_KEY : String
deriving DecidableEq, Repr

/-! ## Errors raised by the pipelines -/

/-- The error code carried by a failed `fs.unlink` callback. -/
inductive UnlinkErrCode where
  | enoent
  | eperm
deriving DecidableEq, Repr

inductive Err where
  /-- `pg_dump ... | gzip > file` exited non-zero (src/backup.ts). -/
  | dumpError (stderr : String)
  /-- "Backup archive file is invalid or empty" (src/backup.ts). -/
  | invalidArchive
  /-- "Invalid S3 key: path traversal detected" (src/util.ts getS3Key). -/
  | invalidKey (name : String)
  /-- "No backup files found with prefix: ..." (getLatestBackupKey). -/
  | noBackupFiles (pfx : String)
  /-- "Could not determine latest backup key" (getLatestBackupKey). -/
  | noLatestKey
  /-- An S3 transfer (GetObject send / Upload.done) failed. -/
  | transfer
  /-- "Archive validation failed" (restore validateArchive). -/
  | validateArchiveError
  /-- `gunzip -c` exited non-zero (restore decompressFile). -/
  | decompressError
  /-- "RESTORE_DATABASE_URL is required for restore mode". -/
  | configMissingRestoreUrl
  /-- `pg_restore` exited non-zero (restoreFromFile). -/
  | restoreToolError (stderr : String)
  /-- An `fs.unlink` callback delivered an error (deleteFile). -/
  | unlinkError (code : UnlinkErrCode)
deriving DecidableEq, Repr

/-! ## File system state and run traces -/

/-- The local file system: the set of paths currently existing on disk. -/
structure FS where
  files : List String
deriving DecidableEq, Repr

def FS.hasFile (fs : FS) (p : String) : Bool := fs.files.contains p

def FS.add (fs : FS) (p : String) : FS := ⟨p :: fs.files⟩

def FS.remove (fs : FS) (p : String) : FS := ⟨fs.files.filter (fun q => q != p)⟩

/-- Observable trace of one run: scratch files allocated via
`createSecureTempPath`, S3 object keys requested via `GetObjectCommand`,
and S3 object keys sent via `Upload`. -/
structure Trace where
  allocs : List String
  s3Gets : List String
  s3Puts : List String
deriving DecidableEq, Repr

deriving instance DecidableEq for Except

/-- Result of a whole pipeline run. -/
structure RunResult where
  res : Except Err Unit
  fs : FS
  tr : Trace
deriving DecidableEq, Repr

/-- Result of the download stage: the local scratch path on success. -/
structure DlResult where
  res : Except Err String
  fs : FS
  tr : Trace
deriving DecidableEq, Repr

/-- `os.tmpdir()` of the container. -/
def tmpdir : String := "/tmp"

/-! ## getS3Key (src/util.ts lines 40 to 50) -/

def getS3Key (env : Env) (name : String) : Except Err String :=
  if strIncludes name ".." || strStarts name "/" then
    .error (.invalidKey name)
  else if env.BUCKET_SUBFOLDER ≠ "" then
    .ok (env.BUCKET_SUBFOLDER ++ "/" ++ name)
  else
    .ok name

/-! ## deleteFile (src/backup.ts lines 86 to 97 and src/util.ts lines 210
to 221, identical semantics)

`fs.unlink` delivers `ENOENT` exactly when the path does not exist; any
other failure (for example a permission error) is injected through the
`forcedErr` oracle flag.  The source rejects the promise on every `err`,
without distinguishing `ENOENT`. -/

def unlinkRes (fs : FS) (path : String) (forcedErr : Bool) : Option UnlinkErrCode :=
  if fs.hasFile path = false then some .enoent
  else if forcedErr then some .eperm
  else none

def deleteFile (fs : FS) (path : String) (forcedErr : Bool) : Except Err Unit × FS :=
  match unlinkRes fs path forcedErr with
  | none => (.ok (), fs.remove path)
  | some c => (.error (.unlinkError c), fs)

/-! ## Artifact naming (src/backup.ts lines 102 to 104)

`new Date().toISOString().replace(/[:.]+/g, '-')`.  An instant is embedded
as the seven numeric fields that `toISOString` prints; the regex
substitution (each maximal run of the characters `:` and `.` becomes a
single dash) is `replaceRuns` below. -/

structure Timestamp where
  year : Nat
  month : Nat
  day : Nat
  hour : Nat
  minute : Nat
  second : Nat
  milli : Nat
deriving DecidableEq, Repr

def sepChar (c : Char) : Bool := c == ':' || c == '.'

def digitChars : List Char := ['0', '1', '2', '3', '4', '5', '6', '7', '8', '9']

def digitChar (n : Nat) : Char := digitChars.getD (n % 10) '0'

def natCharsAux : Nat → Nat → List Char
  | 0, _ => []
  | fuel + 1, n =>
    if n < 10 then [digitChar n] else natCharsAux fuel (n / 10) ++ [digitChar n]

/-- Decimal digit list of a natural number. -/
def natChars (n : Nat) : List Char := natCharsAux (n + 1) n

/-- Left-pad a digit list with zeros to width `w`. -/
def padZeros (w : Nat) (l : List Char) : List Char :=
  List.replicate (w - l.length) '0' ++ l

def pad2 (n : Nat) : List Char := padZeros 2 (natChars n)
def pad3 (n : Nat) : List Char := padZeros 3 (natChars n)
def pad4 (n : Nat) : List Char := padZeros 4 (natChars n)

/-- The character list printed by `Date.prototype.toISOString`. -/
def isoChars (t : Timestamp) : List Char :=
  (pad4 t.year ++ ('-' :: pad2 t.month) ++ ('-' :: pad2 t.day) ++ ('T' :: pad2 t.hour))
    ++ (':' :: (pad2 t.minute ++ (':' :: (pad2 t.second ++ ('.' :: (pad3 t.milli ++ ['Z']))))))

def toISOString (t : Timestamp) : String := ⟨isoChars t⟩

mutual
/-- The global regex replacement `replace(/[:.]+/g, '-')`: every maximal
run of `:` and `.` characters becomes one dash. -/
def replaceRuns : List Char → List Char
  | [] => []
  | c :: cs => if sepChar c then '-' :: skipSeps cs else c :: replaceRuns cs

/-- Skip the remainder of a separator run. -/
def skipSeps : List Char → List Char
  | [] => []
  | c :: cs => if sepChar c then skipSeps cs else c :: replaceRuns cs
end

def tsReplace (s : String) : String := ⟨replaceRuns s.data⟩

/-- The artifact file name `${BACKUP_FILE_PREFIX}-${timestamp}.tar.gz`. -/
def backupFilename (pfx : String) (t : Timestamp) : String :=
  pfx ++ "-" ++ tsReplace (toISOString t) ++ ".tar.gz"

/-- Per-character substitution of `:` and `.` by `-`; this is the wording
of the specification ("ISO8601 with colon and dot replaced by dash"). -/
def charRep (c : Char) : Char := if sepChar c then '-' else c

/-- No two adjacent separator characters; on such lists the run
replacement and the per-character replacement agree. -/
def noTwoSep : List Char → Bool
  | c1 :: c2 :: rest => (!(sepChar c1 && sepChar c2)) && noTwoSep (c2 :: rest)
  | _ => true

/-- No separator characters at all. -/
def sepFree (l : List Char) : Bool := l.all (fun c => !sepChar c)

/-! ## The backup pipeline (src/backup.ts)

`BackupWorld` fixes the outcome of every external call of one run:
whether `pg_dump | gzip` exits non-zero and with which diagnostics, how
many bytes `gzip -cd file | head -c1` emits during the validity check,
whether the S3 upload fails, and whether the `unlink` of the scratch file
fails for a reason other than absence. -/

structure BackupWorld where
  t : Timestamp
  dumpExecFails : Bool
  dumpStderr : String
  decompressedLen : Nat
  uploadFails : Bool
  deleteForced : Bool
deriving DecidableEq, Repr

/-- src/backup.ts `dumpToFile` (lines 43 to 84): propagate a non-zero exit
of the dump pipe, then require that decompressing the produced file yields
at least one byte (`head -c1` output length equal to one). -/
def dumpToFile (w : BackupWorld) : Except Err Unit :=
  if w.dumpExecFails then .error (.dumpError w.dumpStderr)
  else if min w.decompressedLen 1 == 1 then .ok ()
  else .error .invalidArchive

/-- src/backup.ts `uploadToS3` (lines 11 to 41): compute the object key
with `getS3Key` (throwing before any network traffic on an invalid name),
then perform the upload. -/
def uploadToS3 (env : Env) (uploadFails : Bool) (name : String) (tr : Trace) :
    Except Err Unit × Trace :=
  match getS3Key env name with
  | .error e => (.error e, tr)
  | .ok s3Key =>
    let tr1 : Trace := { tr with s3Puts := tr.s3Puts ++ [s3Key] }
    if uploadFails then (.error .transfer, tr1) else (.ok (), tr1)

/-- The scratch path `backup` allocates for a run, `os.tmpdir()` joined
with the artifact file name. -/
def backupScratchPath (env : Env) (w : BackupWorld) : String :=
  tmpdir ++ "/" ++ backupFilename env.BACKUP_FILE_PFX w.t

/-- src/backup.ts `backup` (lines 99 to 114): allocate the scratch file,
dump, upload, delete — sequential awaits with no try/finally, so an error
anywhere propagates immediately and skips the remaining steps. -/
def backup (env : Env) (w : BackupWorld) (fs : FS) (tr : Trace) : RunResult :=
  let filename := backupFilename env.BACKUP_FILE_PFX w.t
  let filepath := tmpdir ++ "/" ++ filename
  let fs1 := fs.add filepath
  let tr1 : Trace := { tr with allocs := tr.allocs ++ [filepath] }
  match dumpToFile w with
  | .error e => ⟨.error e, fs1, tr1⟩
  | .ok _ =>
    match uploadToS3 env w.uploadFails filename tr1 with
    | (.error e, tr2) => ⟨.error e, fs1, tr2⟩
    | (.ok _, tr2) =>
      match deleteFile fs1 filepath w.deleteForced with
      | (.error e, fs2) => ⟨.error e, fs2, tr2⟩
      | (.ok _, fs2) => ⟨.ok (), fs2, tr2⟩

/-! ## getLatestBackupKey (src/util.ts lines 223 to 257)

One entry of the `ListObjectsV2` response; both `Key` and `LastModified`
are optional in the SDK type and the source guards both.  The source
sorts with `(a, b) => timeB - timeA`; ECMAScript `Array.prototype.sort`
is stable, which `sortDesc` below reproduces: descending by time, and
elements of equal time keep their listing order. -/

structure S3Obj where
  key : Option String
  lastModified : Option Nat
deriving DecidableEq, Repr

/-- `a.LastModified ? a.LastModified.getTime() : 0`. -/
def timeOf (o : S3Obj) : Nat := o.lastModified.getD 0

/-- Insert into a descending-sorted list, before the first element whose
time is not greater (stability: an earlier listing element stays in front
of later elements of equal time). -/
def insertDesc (x : S3Obj) : List S3Obj → List S3Obj
  | [] => [x]
  | y :: ys => if timeOf y ≤ timeOf x then x :: y :: ys else y :: insertDesc x ys

/-- Stable descending sort by `timeOf`, the model of
`contents.sort((a, b) => timeB - timeA)`. -/
def sortDesc : List S3Obj → List S3Obj
  | [] => []
  | x :: xs => insertDesc x (sortDesc xs)

/-- The greatest `timeOf` over a listing (zero for an empty listing). -/
def maxTime (l : List S3Obj) : Nat := l.foldr (fun o m => max (timeOf o) m) 0

/-- The search prefix `${BUCKET_SUBFOLDER}/${BACKUP_FILE_PREFIX}-` (the
subfolder part only when configured). -/
def searchPfx (env : Env) : String :=
  (if env.BUCKET_SUBFOLDER ≠ "" then env.BUCKET_SUBFOLDER ++ "/" else "")
    ++ env.BACKUP_FILE_PFX ++ "-"

/-- src/util.ts `getLatestBackupKey`: error on an empty listing, else sort
descending by last-modified time and take the first element; error if its
`Key` is missing. -/
def getLatestBackupKey (env : Env) (listing : List S3Obj) : Except Err String :=
  match listing with
  | [] => .error (.noBackupFiles (searchPfx env))
  | _ :: _ =>
    match (sortDesc listing).head? with
    | none => .error (.noBackupFiles (searchPfx env))
    | some latest =>
      match latest.key with
      | none => .error .noLatestKey
      | some k => .ok k

/-- Modelled from the spec: "selects the one with the greatest
last-modified timestamp; ties broken arbitrarily (last one seen)" — the
key of the last listing element attaining the maximal time.  Stated only
to compare against the behaviour of `getLatestBackupKey`. -/
def specLatestKeyLastSeen (listing : List S3Obj) : Option String :=
  match listing.reverse.find? (fun a => decide (maxTime listing ≤ timeOf a)) with
  | none => none
  | some o => o.key

/-! ## The restore pipeline (src/util.ts restore, lines 94 to 303 of the
combined util source) -/

structure RestoreWorld where
  listing : List S3Obj
  getFails : Bool
  validateFails : Bool
  decompressFails : Bool
  pgRestoreFails : Bool
  pgRestoreStderr : String
  delete1Forced : Bool
  delete2Forced : Bool
deriving DecidableEq, Repr

/-- src/util.ts `downloadFromS3` (lines 101 to 136): compute the S3 key
via `getS3Key`, allocate the scratch file `os.tmpdir()/basename(key)` via
`createSecureTempPath`, then issue the `GetObjectCommand`; a transfer or
stream failure rejects after the scratch file already exists. -/
def downloadFromS3 (env : Env) (getFails : Bool) (key : String) (fs : FS) (tr : Trace) :
    DlResult :=
  match getS3Key env key with
  | .error e => ⟨.error e, fs, tr⟩
  | .ok s3Key =>
    let filepath := tmpdir ++ "/" ++ basename s3Key
    let fs1 := fs.add filepath
    let tr1 : Trace := { tr with allocs := tr.allocs ++ [filepath] }
    let tr2 : Trace := { tr1 with s3Gets := tr1.s3Gets ++ [s3Key] }
    if getFails then ⟨.error .transfer, fs1, tr2⟩ else ⟨.ok filepath, fs1, tr2⟩

/-- src/util.ts `decompressFile` (lines 152 to 178): the output path drops
the first `.gz`; the shell redirection `>` creates the output file before
`gunzip` runs, so the file exists even when decompression fails. -/
def decompressFile (fails : Bool) (filepath : String) (fs : FS) :
    Except Err String × FS :=
  let decompressedPath := replaceFirstStr filepath ".gz" ""
  let fs1 := fs.add decompressedPath
  if fails then (.error .decompressError, fs1) else (.ok decompressedPath, fs1)

/-- src/util.ts `restoreFromFile` (lines 180 to 208): the configuration
check on `RESTORE_DATABASE_URL` happens here, inside the restore step,
then `pg_restore` runs. -/
def restoreFromFile (env : Env) (w : RestoreWorld) : Except Err Unit :=
  if env.RESTORE_DATABASE_URL = "" then .error .configMissingRestoreUrl
  else if w.pgRestoreFails then .error (.restoreToolError w.pgRestoreStderr)
  else .ok ()

/-- Step 1 of `restore`: `env.RESTORE_FILE_KEY || await getLatestBackupKey()`. -/
def resolveRestoreKey (env : Env) (w : RestoreWorld) : Except Err String :=
  if env.RESTORE_FILE_KEY ≠ "" then .ok env.RESTORE_FILE_KEY
  else getLatestBackupKey env w.listing

/-- src/util.ts `restore` (lines 259 to 303): resolve key, download,
validate, decompress, pg_restore inside a try; the finally block deletes
`downloadedPath` and `decompressedPath` when the corresponding variables
were assigned, each deletion inside its own try/catch whose error is only
logged, never propagated. -/
def restore (env : Env) (w : RestoreWorld) (fs : FS) (tr : Trace) : RunResult :=
  match resolveRestoreKey env w with
  | .error e => ⟨.error e, fs, tr⟩
  | .ok restoreKey =>
    match downloadFromS3 env w.getFails restoreKey fs tr with
    | ⟨.error e, fs1, tr1⟩ => ⟨.error e, fs1, tr1⟩
    | ⟨.ok downloadedPath, fs1, tr1⟩ =>
      let step : Except Err Unit × Option String × FS :=
        if w.validateFails then (.error .validateArchiveError, none, fs1)
        else
          match decompressFile w.decompressFails downloadedPath fs1 with
          | (.error e, fs2) => (.error e, none, fs2)
          | (.ok dp, fs2) =>
            match restoreFromFile env w with
            | .error e => (.error e, some dp, fs2)
            | .ok _ => (.ok (), some dp, fs2)
      match step with
      | (primary, decompressedPath, fs2) =>
        let fs3 := (deleteFile fs2 downloadedPath w.delete1Forced).2
        let fs4 :=
          match decompressedPath with
          | none => fs3
          | some dp => (deleteFile fs3 dp w.delete2Forced).2
        ⟨primary, fs4, tr1⟩

/-- src/index.ts lines 43 to 48: when `MODE` is `restore` and
`RESTORE_DATABASE_URL` is unset, the process exits with code 1 at startup,
before either pipeline is ever invoked. -/
def restoreModeStartupCheck (env : Env) : Except Err Unit :=
  if env.MODE = "restore" && env.RESTORE_DATABASE_URL = "" then
    .error .configMissingRestoreUrl
  else .ok ()

/-! ## extractDatabaseHost (src/util.ts lines 71 to 94)

The source delegates parsing to the WHATWG `URL` constructor.  It is
modelled here at its interface boundary for connection strings of the
shapes the function handles: scheme, optional `user:password@` userinfo
(split at the last `@` of the authority), host, optional numeric port
(split at the last `:`, serialized without leading zeros), path and query.
A `none` result models the constructor throwing. -/

def isDigitC (c : Char) : Bool := 48 ≤ c.toNat && c.toNat ≤ 57

/-- The suffix after the first `://`, `none` when there is none. -/
def stripSchemeSep : List Char → Option (List Char)
  | [] => none
  | c :: rest =>
    if c = ':' ∧ rest.take 2 = ['/', '/'] then some (rest.drop 2)
    else stripSchemeSep rest

/-- WHATWG port serialization: numeric, so leading zeros disappear. -/
def normalizePort (p : List Char) : List Char :=
  let q := p.dropWhile (fun c => c == '0')
  if q.isEmpty && !p.isEmpty then ['0'] else q

/-- Split `host:port`; `none` models the constructor rejecting a
non-numeric port. -/
def splitPort (hp : List Char) : Option (List Char × List Char) :=
  if hp.contains ':' then
    let af := afterLast ':' hp
    if af.all isDigitC then
      some (hp.take (hp.length - af.length - 1), normalizePort af)
    else none
  else some (hp, [])

structure URLRec where
  hostname : List Char
  port : List Char
  pathname : List Char
  query : List Char
deriving DecidableEq, Repr

def notAuthEnd (c : Char) : Bool := !(c == '/' || c == '?' || c == '#')

def notPathEnd (c : Char) : Bool := !(c == '?' || c == '#')

def parseURLChars (l : List Char) : Option URLRec :=
  match stripSchemeSep l with
  | none => none
  | some rest =>
    let authority := rest.takeWhile notAuthEnd
    let afterAuth := rest.drop authority.length
    let hostport := afterLast '@' authority
    match splitPort hostport with
    | none => none
    | some (hostname, port) =>
      let pathname := afterAuth.takeWhile notPathEnd
      let afterPath := afterAuth.drop pathname.length
      let query :=
        match afterPath with
        | '?' :: q => q.takeWhile (fun c => c != '#')
        | _ => []
      some ⟨hostname, port, pathname, query⟩

/-- The model of `new URL(s)`. -/
def parseURL (s : String) : Option URLRec := parseURLChars s.data

/-- Split a character list at every occurrence of `sep`. -/
def splitOnChar (sep : Char) : List Char → List (List Char)
  | [] => [[]]
  | c :: cs =>
    if c == sep then [] :: splitOnChar sep cs
    else
      match splitOnChar sep cs with
      | [] => [[c]]
      | h :: t => (c :: h) :: t

/-- `urlObj.searchParams.get(key)` restricted to plain `key=value` pairs. -/
def queryGet (query : List Char) (key : List Char) : Option (List Char) :=
  (splitOnChar '&' query).findSome? fun part =>
    if (key ++ ['=']).isPrefixOf part then some (part.drop (key.length + 1))
    else none

/-- src/util.ts `extractDatabaseHost`: the unix-socket branch fires when
the raw string contains `?host=` and the `host` query parameter is truthy;
otherwise host, port (defaulted to 5432 when empty) and the database name
(pathname with its first slash removed) are assembled.  A parse failure is
the catch branch. -/
def extractDatabaseHost (databaseUrl : String) : String :=
  match parseURL databaseUrl with
  | none => "[invalid URL]"
  | some u =>
    let sockOut : Option (List Char) :=
      if strIncludes databaseUrl "?host=" then
        match queryGet u.query "host".data with
        | some h =>
          if h.isEmpty then none
          else some (h ++ (":5432/".data ++ replaceFirstChars u.pathname ['/'] []))
        | none => none
      else none
    match sockOut with
    | some out => ⟨out⟩
    | none =>
      let port := if u.port.isEmpty then "5432".data else u.port
      ⟨u.hostname ++ (':' :: (port ++ ('/' :: replaceFirstChars u.pathname ['/'] [])))⟩

/-! ### Connection-string construction for the credential-safety claim -/

/-- A postgres connection string assembled from components; two strings
"differing only in the embedded credentials" are two `mkConn` applications
with the same host, port and database but different `cred`. -/
def mkConn (cred : Option (String × String)) (host port db : String) : String :=
  "postgresql://"
    ++ (match cred with | some (u, p) => u ++ ":" ++ p ++ "@" | none => "")
    ++ host ++ (if port = "" then "" else ":" ++ port) ++ "/" ++ db

/-- Characters admissible in a userinfo component. -/
def credOkChar (c : Char) : Bool := !(c == '@' || c == '/' || c == '?' || c == '#')

/-- Characters admissible in a host component. -/
def hostOkChar (c : Char) : Bool :=
  !(c == '@' || c == ':' || c == '/' || c == '?' || c == '#')

/-- Characters admissible in a database-name component. -/
def dbOkChar (c : Char) : Bool := !(c == '/' || c == '?' || c == '#')

def credOk : Option (String × String) → Bool
  | none => true
  | some (u, p) => u.data.all credOkChar && p.data.all credOkChar

/-- A well-formed explicit port: empty, or numeric without a leading zero. -/
def portOkStr (p : String) : Bool :=
  p = "" || (p.data.all isDigitC && p.data.head? != some '0')

/-! ### Character-level decomposition of `mkConn` -/

def schemeChars : List Char := "postgresql://".data

def credChars : Option (String × String) → List Char
  | none => []
  | some (u, p) => u.data ++ (':' :: (p.data ++ ['@']))

def portChars (port : String) : List Char :=
  if port = "" then [] else ':' :: port.data

/-! ## Concrete fixtures used by counterexamples and witnesses -/

def emptyFS : FS := ⟨[]⟩

def emptyTrace : Trace := ⟨[], [], []⟩

def tsEx : Timestamp := ⟨2025, 1, 2, 3, 4, 5, 678⟩

/-- A backup-mode configuration without a subfolder. -/
def envB : Env := ⟨"backup", "bucket", "backup", "", "", ""⟩

/-- A run whose dump subprocess exits non-zero. -/
def wDumpFail : BackupWorld := ⟨tsEx, true, "pg_dump: error", 0, false, false⟩

/-- A restore configuration with an explicit file key and no subfolder. -/
def envRK : Env := ⟨"restore", "bucket", "backup", "", "postgresql://u@h/d", "k.tar.gz"⟩

/-- A restore run where only the S3 object transfer fails. -/
def wGetFail : RestoreWorld := ⟨[], true, false, false, false, "", false, false⟩

/-- A restore run where every external call succeeds. -/
def wAllOk : RestoreWorld := ⟨[], false, false, false, false, "", false, false⟩

/-- `envRK` but with the restore connection string unset. -/
def envNoUrl : Env := ⟨"restore", "bucket", "backup", "", "", "k.tar.gz"⟩

/-- A restore configuration with subfolder `db` and no explicit key. -/
def envSub : Env := ⟨"restore", "bucket", "backup", "db", "postgresql://u@h/d", ""⟩

/-- A listing as S3 returns it under subfolder `db`: one full key. -/
def wSub : RestoreWorld :=
  ⟨[⟨some "db/backup-2025-01-01T00-00-00-000Z.tar.gz", some 5⟩],
    false, false, false, false, "", false, false⟩

/-- Two listed objects with identical last-modified times. -/
def listTie : List S3Obj := [⟨some "a", some 5⟩, ⟨some "b", some 5⟩]

/-- A backup run whose dump exits zero but produces an empty archive. -/
def wEmptyDump : BackupWorld := ⟨tsEx, false, "", 0, false, false⟩

/-- Derived summary of the restore pipeline outcome before cleanup; used
to state that the finally block never alters the propagated result. -/
def restorePrimary (env : Env) (w : RestoreWorld) : Except Err Unit :=
  match resolveRestoreKey env w with
  | .error e => .error e
  | .ok key =>
    match getS3Key env key with
    | .error e => .error e
    | .ok _ =>
      if w.getFails then .error .transfer
      else if w.validateFails then .error .validateArchiveError
      else if w.decompressFails then .error .decompressError
      else restoreFromFile env w

/-! # Theorems -/

/-! ## File-system helper lemmas -/

theorem hasFile_add_self (fs : FS) (p : String) : (fs.add p).hasFile p = true := by
  simp [FS.add, FS.hasFile]

theorem hasFile_add_mono (fs : FS) (p q : String) (h : fs.hasFile p = true) :
    (fs.add q).hasFile p = true := by
  simp_all [FS.add, FS.hasFile]

theorem hasFile_remove_self (fs : FS) (p : String) : (fs.remove p).hasFile p = false := by
  simp [FS.remove, FS.hasFile]

theorem hasFile_remove_mono (fs : FS) (p q : String) (h : fs.hasFile p = false) :
    (fs.remove q).hasFile p = false := by
  simp_all [FS.remove, FS.hasFile]

/-- Deleting one path never makes another path reappear. -/
theorem deleteFile_preserves_absent (fs : FS) (p q : String) (b : Bool)
    (h : fs.hasFile p = false) : ((deleteFile fs q b).2).hasFile p = false := by
  unfold deleteFile unlinkRes
  by_cases hq : fs.hasFile q = true
  · simp [hq]
    cases b <;> simp [hasFile_remove_mono _ _ _ h, h]
  · simp at hq
    simp [hq, h]

/-- An unforced deletion leaves the target absent, whether or not the file
existed beforehand. -/
theorem deleteFile_removes (fs : FS) (p : String) :
    ((deleteFile fs p false).2).hasFile p = false := by
  unfold deleteFile unlinkRes
  by_cases hp : fs.hasFile p = true
  · simp [hp, hasFile_remove_self]
  · simp at hp
    simp [hp]

/-! ## C1: backup cleanup -/

/-- C1 counterexample: the claim states the scratch file is deleted on
every exit path of `backup`; in the run `wDumpFail`, where the dump
subprocess fails, `backup` returns with the allocated scratch file still
on disk, because `backup` has no finally block. -/
theorem backup_cleanup_counterexample :
    (backup envB wDumpFail emptyFS emptyTrace).res = .error (.dumpError "pg_dump: error")
    ∧ (backup envB wDumpFail emptyFS emptyTrace).tr.allocs
        = ["/tmp/backup-2025-01-02T03-04-05-678Z.tar.gz"]
    ∧ (backup envB wDumpFail emptyFS emptyTrace).fs.hasFile
        "/tmp/backup-2025-01-02T03-04-05-678Z.tar.gz" = true := by
  refine ⟨by decide, by decide, by decide⟩

/-- C1 amended: the scratch file allocated by `backup` is deleted exactly
on the fully successful path; on every run where the dump, the archive
validation, or the upload fails, the release step is skipped and the
scratch file is still on disk when `backup` returns. -/
theorem backup_cleanup_amended (env : Env) (w : BackupWorld) (fs : FS) (tr : Trace) :
    ((backup env w fs tr).res = .ok () →
      (backup env w fs tr).fs.hasFile (backupScratchPath env w) = false)
    ∧ ((w.dumpExecFails = true ∨ w.decompressedLen < 1 ∨ w.uploadFails = true) →
      (backup env w fs tr).fs.hasFile (backupScratchPath env w) = true) := by
  rcases w with ⟨t, de, ds, dl, uf, df⟩
  rcases hk : getS3Key env (backupFilename env.BACKUP_FILE_PFX t) with e | k <;>
  cases de <;> cases uf <;> cases df <;>
  by_cases hv : (min dl 1 == 1) = true <;>
  constructor <;> intro h <;>
  simp_all [backup, backupScratchPath, dumpToFile, uploadToS3, deleteFile, unlinkRes,
    hasFile_add_self, hasFile_remove_self]

theorem backup_cleanup_amended_witness :
    (backup envB wDumpFail emptyFS emptyTrace).fs.hasFile
      (backupScratchPath envB wDumpFail) = true :=
  (backup_cleanup_amended envB wDumpFail emptyFS emptyTrace).2 (Or.inl rfl)

/-! ## C4: double subfolder prefix on restore-of-latest -/

/-- C4: with subfolder `db` configured and no explicit restore key, step 1
resolves the full key `db/backup-...` from the listing, but the download
step requests `db/db/backup-...` from S3, because `downloadFromS3` applies
`getS3Key` (which prepends the subfolder) to a key that already carries
the subfolder. -/
theorem restore_double_subfolder_bug :
    resolveRestoreKey envSub wSub = .ok "db/backup-2025-01-01T00-00-00-000Z.tar.gz"
    ∧ (restore envSub wSub emptyFS emptyTrace).tr.s3Gets
        = ["db/db/backup-2025-01-01T00-00-00-000Z.tar.gz"]
    ∧ ("db/db/backup-2025-01-01T00-00-00-000Z.tar.gz" : String)
        ≠ "db/backup-2025-01-01T00-00-00-000Z.tar.gz" := by
  refine ⟨by decide, by decide, by decide⟩

/-! ## C5: deleteFile and missing files -/

/-- C5 counterexample: the claim states that releasing an already absent
path surfaces no error; `deleteFile` on an absent path rejects with the
`ENOENT` unlink error. -/
theorem deleteFile_notfound_counterexample :
    (deleteFile emptyFS "/tmp/absent.tar.gz" false).1
        = .error (.unlinkError .enoent)
    ∧ (deleteFile emptyFS "/tmp/absent.tar.gz" false).1 ≠ .ok () := by
  refine ⟨by decide, by decide⟩

/-- C5 amended: `deleteFile` rejects on every failed unlink, including the
not-found case, and succeeds exactly when the file exists and unlink
succeeds (so it never signals failure spuriously on success); treating
deletion failures as non-fatal is left to the callers that catch them. -/
theorem deleteFile_contract_amended (fs : FS) (p : String) (b : Bool) :
    ((deleteFile fs p b).1 = .ok () ↔ (fs.hasFile p = true ∧ b = false))
    ∧ (fs.hasFile p = false →
        (deleteFile fs p b).1 = .error (.unlinkError .enoent)) := by
  unfold deleteFile unlinkRes
  by_cases hp : fs.hasFile p = true <;> cases b <;> simp [hp]

theorem deleteFile_contract_amended_witness :
    (deleteFile ⟨["/tmp/w5.tar.gz"]⟩ "/tmp/w5.tar.gz" false).1 = .ok () :=
  (deleteFile_contract_amended ⟨["/tmp/w5.tar.gz"]⟩ "/tmp/w5.tar.gz" false).1.mpr
    ⟨by decide, rfl⟩

/-! ## C7: archive validation blocks the upload -/

/-- C7: when the dump subprocess exits zero but decompressing the produced
file yields fewer than one byte, `dumpToFile` fails with the invalid
archive error and `backup` propagates it without issuing any S3 upload. -/
theorem dump_validation_blocks_upload (env : Env) (w : BackupWorld) (fs : FS) (tr : Trace)
    (hexec : w.dumpExecFails = false) (hempty : w.decompressedLen < 1) :
    dumpToFile w = .error .invalidArchive
    ∧ (backup env w fs tr).res = .error .invalidArchive
    ∧ (backup env w fs tr).tr.s3Puts = tr.s3Puts := by
  have hlen : w.decompressedLen = 0 := by omega
  have hd : dumpToFile w = .error .invalidArchive := by
    simp [dumpToFile, hexec, hlen]
  refine ⟨hd, ?_, ?_⟩ <;> simp [backup, hd]

theorem dump_validation_blocks_upload_witness :
    dumpToFile wEmptyDump = .error .invalidArchive
    ∧ (backup envB wEmptyDump emptyFS emptyTrace).res = .error .invalidArchive
    ∧ (backup envB wEmptyDump emptyFS emptyTrace).tr.s3Puts = emptyTrace.s3Puts :=
  dump_validation_blocks_upload envB wEmptyDump emptyFS emptyTrace rfl (by decide)

/-! ## C9: path traversal rejection in key construction -/

/-- C9: a logical artifact name containing the two-character sequence `..`
or starting with a slash makes `getS3Key` fail with the invalid key error,
and the download stage then returns that error without touching the file
system or issuing any S3 request; every other name maps to the subfolder
joined with the name when a subfolder is configured, and to the name
unchanged otherwise. -/
theorem getS3Key_traversal (env : Env) (name : String) (g : Bool) (fs : FS) (tr : Trace) :
    ((strIncludes name ".." || strStarts name "/") = true →
      getS3Key env name = .error (.invalidKey name)
      ∧ downloadFromS3 env g name fs tr = ⟨.error (.invalidKey name), fs, tr⟩)
    ∧ ((strIncludes name ".." || strStarts name "/") = false →
      getS3Key env name
        = .ok (if env.BUCKET_SUBFOLDER ≠ "" then env.BUCKET_SUBFOLDER ++ "/" ++ name
               else name)) := by
  constructor <;> intro h <;> simp [getS3Key, downloadFromS3, h] <;> split <;> rfl

theorem getS3Key_traversal_witness :
    getS3Key envB "../etc/passwd" = .error (.invalidKey "../etc/passwd")
    ∧ downloadFromS3 envB false "../etc/passwd" emptyFS emptyTrace
        = ⟨.error (.invalidKey "../etc/passwd"), emptyFS, emptyTrace⟩ :=
  (getS3Key_traversal envB "../etc/passwd" false emptyFS emptyTrace).1 (by decide)

/-! ## Restore cleanup helper lemmas -/

set_option maxHeartbeats 1000000 in
/-- The result propagated by `restore` is always the pre-cleanup outcome
`restorePrimary`; the finally block only touches the file system. -/
theorem restore_res_eq (env : Env) (w : RestoreWorld) (fs : FS) (tr : Trace) :
    (restore env w fs tr).res = restorePrimary env w := by
  rcases w with ⟨listing, gf, vf, dcf, pf, ps, d1, d2⟩
  rcases hkey : resolveRestoreKey env ⟨listing, gf, vf, dcf, pf, ps, d1, d2⟩ with e | key
  · simp [restore, restorePrimary, hkey]
  · rcases hk2 : getS3Key env key with e2 | s3k
    · simp [restore, restorePrimary, hkey, hk2, downloadFromS3]
    · rcases hr : restoreFromFile env ⟨listing, gf, vf, dcf, pf, ps, d1, d2⟩ with e3 | u <;>
      cases gf <;> cases vf <;> cases dcf <;>
      simp [restore, restorePrimary, hkey, hk2, hr, downloadFromS3, decompressFile]

/-- Forcing either cleanup deletion to fail never changes the result that
`restore` returns. -/
theorem restore_res_delete_invariant (env : Env) (w : RestoreWorld) (fs : FS) (tr : Trace)
    (b1 b2 : Bool) :
    (restore env { w with delete1Forced := b1, delete2Forced := b2 } fs tr).res
      = (restore env w fs tr).res := by
  rw [restore_res_eq, restore_res_eq]
  rcases w with ⟨listing, gf, vf, dcf, pf, ps, d1, d2⟩
  rfl

set_option maxHeartbeats 1000000 in
/-- Once the download stage has returned its path, the finally block
removes the downloaded scratch file on every exit path, for every outcome
of the later stages and of the second deletion. -/
theorem restore_deletes_downloaded (env : Env) (w : RestoreWorld) (fs : FS) (tr : Trace)
    (key s3k : String) (h1 : resolveRestoreKey env w = .ok key)
    (h2 : getS3Key env key = .ok s3k) (h3 : w.getFails = false)
    (h4 : w.delete1Forced = false) :
    (restore env w fs tr).fs.hasFile (tmpdir ++ "/" ++ basename s3k) = false := by
  rcases w with ⟨listing, gf, vf, dcf, pf, ps, d1, d2⟩
  simp only at h3 h4
  subst h3; subst h4
  rcases hr : restoreFromFile env ⟨listing, false, vf, dcf, pf, ps, false, d2⟩ with e3 | u <;>
  cases vf <;> cases dcf <;>
  simp [restore, h1, h2, hr, downloadFromS3, decompressFile] <;>
  first
    | exact deleteFile_removes _ _
    | exact deleteFile_preserves_absent _ _ _ _ (deleteFile_removes _ _)

set_option maxHeartbeats 1000000 in
/-- Once the decompress stage has returned its path, the finally block
removes the decompressed scratch file, independently of the outcome of the
first deletion and of the restore tool. -/
theorem restore_deletes_decompressed (env : Env) (w : RestoreWorld) (fs : FS) (tr : Trace)
    (key s3k : String) (h1 : resolveRestoreKey env w = .ok key)
    (h2 : getS3Key env key = .ok s3k) (h3 : w.getFails = false)
    (h5 : w.validateFails = false) (h6 : w.decompressFails = false)
    (h7 : w.delete2Forced = false) :
    (restore env w fs tr).fs.hasFile
      (replaceFirstStr (tmpdir ++ "/" ++ basename s3k) ".gz" "") = false := by
  rcases w with ⟨listing, gf, vf, dcf, pf, ps, d1, d2⟩
  simp only at h3 h5 h6 h7
  subst h3; subst h5; subst h6; subst h7
  rcases hr : restoreFromFile env ⟨listing, false, false, false, pf, ps, d1, false⟩ with e3 | u <;>
  simp [restore, h1, h2, hr, downloadFromS3, decompressFile] <;>
  exact deleteFile_removes _ _

/-! ## C2: restore cleanup -/

/-- C2 counterexample: the claim states that every scratch file allocated
during a restore run is released on failure as well; in the run `wGetFail`
the S3 transfer fails after `downloadFromS3` has already allocated the
scratch file, `downloadedPath` is never assigned, and the file is still on
disk when `restore` returns. -/
theorem restore_cleanup_counterexample :
    (restore envRK wGetFail emptyFS emptyTrace).res = .error .transfer
    ∧ (restore envRK wGetFail emptyFS emptyTrace).tr.allocs = ["/tmp/k.tar.gz"]
    ∧ (restore envRK wGetFail emptyFS emptyTrace).fs.hasFile "/tmp/k.tar.gz" = true := by
  refine ⟨by decide, by decide, by decide⟩

/-- C2 amended: the two scratch files whose paths the orchestrator has
recorded (download returned, decompress returned) are released in the
finally block on every exit path; the two deletions are attempted
independently of each other, and no deletion outcome ever changes the
result `restore` returns.  A scratch file allocated inside a stage that
fails before returning its path is not released. -/
theorem restore_cleanup_amended (env : Env) (w : RestoreWorld) (fs : FS) (tr : Trace)
    (key s3k : String) (h1 : resolveRestoreKey env w = .ok key)
    (h2 : getS3Key env key = .ok s3k) (h3 : w.getFails = false) :
    ((w.delete1Forced = false →
      (restore env w fs tr).fs.hasFile (tmpdir ++ "/" ++ basename s3k) = false)
    ∧ (w.validateFails = false → w.decompressFails = false → w.delete2Forced = false →
      (restore env w fs tr).fs.hasFile
        (replaceFirstStr (tmpdir ++ "/" ++ basename s3k) ".gz" "") = false)
    ∧ ∀ b1 b2 : Bool,
      (restore env { w with delete1Forced := b1, delete2Forced := b2 } fs tr).res
        = (restore env w fs tr).res) :=
  ⟨fun h4 => restore_deletes_downloaded env w fs tr key s3k h1 h2 h3 h4,
    fun h5 h6 h7 => restore_deletes_decompressed env w fs tr key s3k h1 h2 h3 h5 h6 h7,
    fun b1 b2 => restore_res_delete_invariant env w fs tr b1 b2⟩

theorem restore_cleanup_amended_witness :
    (restore envRK wAllOk emptyFS emptyTrace).fs.hasFile "/tmp/k.tar.gz" = false :=
  (restore_cleanup_amended envRK wAllOk emptyFS emptyTrace "k.tar.gz" "k.tar.gz"
    rfl (by decide) rfl).1 rfl

/-! ## C3: missing RESTORE_DATABASE_URL -/

/-- C3 counterexample: the claim states that an unset restore connection
string fails the pipeline before any download and before any scratch
allocation; invoking `restore` without it downloads the object and
allocates the scratch file, and only the restore step raises the
configuration error. -/
theorem restore_config_counterexample :
    (restore envNoUrl wAllOk emptyFS emptyTrace).res = .error .configMissingRestoreUrl
    ∧ (restore envNoUrl wAllOk emptyFS emptyTrace).tr.s3Gets = ["k.tar.gz"]
    ∧ (restore envNoUrl wAllOk emptyFS emptyTrace).tr.allocs = ["/tmp/k.tar.gz"] := by
  refine ⟨by decide, by decide, by decide⟩

set_option maxHeartbeats 1000000 in
/-- C3 amended: with `RESTORE_DATABASE_URL` unset, the process-level
startup guard of index.ts refuses restore mode before any pipeline run,
and the `restore` pipeline itself never succeeds — but inside the pipeline
the configuration error is raised only at the restore step, after the
download has been issued and the scratch file allocated. -/
theorem restore_config_amended (env : Env) (w : RestoreWorld) (fs : FS) (tr : Trace)
    (hurl : env.RESTORE_DATABASE_URL = "") :
    restoreModeStartupCheck { env with MODE := "restore" } = .error .configMissingRestoreUrl
    ∧ (restore env w fs tr).res ≠ .ok ()
    ∧ ∀ key s3k, resolveRestoreKey env w = .ok key → getS3Key env key = .ok s3k →
        w.getFails = false → w.validateFails = false → w.decompressFails = false →
        (restore env w fs tr).res = .error .configMissingRestoreUrl
        ∧ (restore env w fs tr).tr.s3Gets = tr.s3Gets ++ [s3k]
        ∧ (restore env w fs tr).tr.allocs = tr.allocs ++ [tmpdir ++ "/" ++ basename s3k] := by
  refine ⟨?_, ?_, ?_⟩
  · simp [restoreModeStartupCheck, hurl]
  · rw [restore_res_eq]
    rcases w with ⟨listing, gf, vf, dcf, pf, ps, d1, d2⟩
    unfold restorePrimary
    rcases hkey : resolveRestoreKey env ⟨listing, gf, vf, dcf, pf, ps, d1, d2⟩ with e | key
    · simp
    · rcases hk2 : getS3Key env key with e2 | s3k
      · simp [hk2]
      · cases gf <;> cases vf <;> cases dcf <;> simp [restoreFromFile, hurl, hk2]
  · intro key s3k hky hk2 hg hv hdc
    rcases w with ⟨listing, gf, vf, dcf, pf, ps, d1, d2⟩
    simp only at hg hv hdc
    subst hg; subst hv; subst hdc
    have hr : restoreFromFile env ⟨listing, false, false, false, pf, ps, d1, d2⟩
        = .error .configMissingRestoreUrl := by
      simp [restoreFromFile, hurl]
    simp [restore, hky, hk2, hr, downloadFromS3, decompressFile]

theorem restore_config_amended_witness :
    (restore envNoUrl wAllOk emptyFS emptyTrace).res = .error .configMissingRestoreUrl
    ∧ (restore envNoUrl wAllOk emptyFS emptyTrace).tr.s3Gets
        = emptyTrace.s3Gets ++ ["k.tar.gz"]
    ∧ (restore envNoUrl wAllOk emptyFS emptyTrace).tr.allocs
        = emptyTrace.allocs ++ [tmpdir ++ "/" ++ basename "k.tar.gz"] :=
  (restore_config_amended envNoUrl wAllOk emptyFS emptyTrace rfl).2.2
    "k.tar.gz" "k.tar.gz" rfl (by decide) rfl rfl rfl

/-! ## C6: resolve-newest -/

theorem maxTime_cons (x : S3Obj) (xs : List S3Obj) :
    maxTime (x :: xs) = max (timeOf x) (maxTime xs) := rfl

theorem mem_le_maxTime (l : List S3Obj) (o : S3Obj) (h : o ∈ l) : timeOf o ≤ maxTime l := by
  induction l with
  | nil => cases h
  | cons x xs ih =>
    rcases List.mem_cons.mp h with h | h
    · subst h; rw [maxTime_cons]; exact le_max_left _ _
    · exact le_trans (ih h) (by rw [maxTime_cons]; exact le_max_right _ _)

/-- The head of the stable descending sort is the first listed element
attaining the maximal time. -/
theorem sortDesc_head (l : List S3Obj) (h : l ≠ []) :
    ∃ o, (sortDesc l).head? = some o
      ∧ timeOf o = maxTime l
      ∧ l.find? (fun a => decide (maxTime l ≤ timeOf a)) = some o := by
  induction l with
  | nil => exact absurd rfl h
  | cons x xs ih =>
    cases xs with
    | nil =>
      refine ⟨x, rfl, ?_, ?_⟩
      · simp [maxTime_cons, maxTime]
      · simp [List.find?, maxTime_cons, maxTime]
    | cons y ys =>
      obtain ⟨o, ho1, ho2, ho3⟩ := ih (by simp)
      obtain ⟨rest, hrest⟩ : ∃ rest, sortDesc (y :: ys) = o :: rest := by
        cases hs : sortDesc (y :: ys) with
        | nil => rw [hs] at ho1; simp at ho1
        | cons a r =>
          rw [hs] at ho1
          simp at ho1
          exact ⟨r, by rw [ho1]⟩
      by_cases hc : timeOf o ≤ timeOf x
      · have hm : maxTime (x :: y :: ys) = timeOf x := by
          rw [maxTime_cons, ← ho2]; omega
        refine ⟨x, ?_, ?_, ?_⟩
        · show (insertDesc x (sortDesc (y :: ys))).head? = some x
          rw [hrest]
          simp [insertDesc, hc]
        · omega
        · rw [List.find?_cons]
          have : (fun a => decide (maxTime (x :: y :: ys) ≤ timeOf a)) x = true := by
            simp [hm]
          simp [this]
      · push_neg at hc
        have hm : maxTime (x :: y :: ys) = maxTime (y :: ys) := by
          rw [maxTime_cons]; omega
        refine ⟨o, ?_, ?_, ?_⟩
        · show (insertDesc x (sortDesc (y :: ys))).head? = some o
          rw [hrest]
          simp [insertDesc, not_le.mpr hc]
        · rw [hm]; exact ho2
        · rw [List.find?_cons]
          have hx : (fun a => decide (maxTime (x :: y :: ys) ≤ timeOf a)) x = false := by
            simp [hm]; omega
          simp only [hx]
          simp only [hm]
          exact ho3

/-- C6 counterexample: the claim states that ties in the last-modified
time are broken by the last object seen in the listing; on the listing
`listTie` (keys `a` then `b`, equal times) `getLatestBackupKey` returns
`a`, the first one seen, because the sort of the source is stable. -/
theorem getLatest_tiebreak_counterexample :
    getLatestBackupKey envB listTie = .ok "a"
    ∧ specLatestKeyLastSeen listTie = some "b"
    ∧ ("a" : String) ≠ "b" := by
  refine ⟨by decide, by decide, by decide⟩

/-- C6 amended: for an empty listing `getLatestBackupKey` fails with the
no-backup-files error; whenever it returns a key, that key belongs to the
first listed object whose last-modified time is maximal among all listed
objects (ties broken by the first one seen, the stable-sort order). -/
theorem getLatest_amended (env : Env) (listing : List S3Obj) :
    (listing = [] → getLatestBackupKey env listing = .error (.noBackupFiles (searchPfx env)))
    ∧ (∀ k, getLatestBackupKey env listing = .ok k →
        ∃ o, listing.find? (fun a => decide (maxTime listing ≤ timeOf a)) = some o
          ∧ o.key = some k ∧ o ∈ listing ∧ ∀ a ∈ listing, timeOf a ≤ timeOf o) := by
  constructor
  · intro h; subst h; rfl
  · intro k hk
    cases listing with
    | nil => simp [getLatestBackupKey] at hk
    | cons x xs =>
      obtain ⟨o, ho1, ho2, ho3⟩ := sortDesc_head (x :: xs) (by simp)
      rw [getLatestBackupKey] at hk
      simp only [ho1] at hk
      cases hkey : o.key with
      | none => rw [hkey] at hk; simp at hk
      | some k2 =>
        rw [hkey] at hk
        simp at hk
        refine ⟨o, ho3, ?_, List.mem_of_find?_eq_some ho3, ?_⟩
        · rw [hkey, hk]
        · intro a ha; rw [ho2]; exact mem_le_maxTime _ _ ha

theorem getLatest_amended_witness :
    ∃ o, ([⟨some "w6", some 3⟩] : List S3Obj).find?
          (fun a => decide (maxTime [⟨some "w6", some 3⟩] ≤ timeOf a)) = some o
      ∧ o.key = some "w6" ∧ o ∈ [(⟨some "w6", some 3⟩ : S3Obj)]
      ∧ ∀ a ∈ [(⟨some "w6", some 3⟩ : S3Obj)], timeOf a ≤ timeOf o :=
  (getLatest_amended envB [⟨some "w6", some 3⟩]).2 "w6" rfl

/-! ## C8: artifact naming -/

theorem noTwoSep_tail (c : Char) (l : List Char) (h : noTwoSep (c :: l) = true) :
    noTwoSep l = true := by
  cases l with
  | nil => rfl
  | cons d r =>
    simp [noTwoSep] at h ⊢
    exact h.2

theorem noTwoSep_cons (c : Char) (l : List Char) (hc : sepChar c = false)
    (h : noTwoSep l = true) : noTwoSep (c :: l) = true := by
  cases l <;> simp [noTwoSep, hc, h]

theorem sepFree_cons (c : Char) (l : List Char) :
    sepFree (c :: l) = (!sepChar c && sepFree l) := by
  simp [sepFree]

theorem sepFree_append (l1 l2 : List Char) :
    sepFree (l1 ++ l2) = (sepFree l1 && sepFree l2) := by
  simp [sepFree, List.all_append]

theorem sepFree_noTwoSep_append (l1 l2 : List Char) (h1 : sepFree l1 = true)
    (h2 : noTwoSep l2 = true) : noTwoSep (l1 ++ l2) = true := by
  induction l1 with
  | nil => exact h2
  | cons c cs ih =>
    rw [sepFree_cons] at h1
    simp at h1
    exact noTwoSep_cons _ _ (by simp [h1.1]) (ih h1.2)

theorem sep_block (s : Char) (l1 l2 : List Char) (h1 : sepFree l1 = true)
    (hne : l1 ≠ []) (h2 : noTwoSep l2 = true) : noTwoSep (s :: (l1 ++ l2)) = true := by
  cases l1 with
  | nil => exact absurd rfl hne
  | cons c cs =>
    have hc : sepChar c = false := by
      rw [sepFree_cons] at h1
      simp at h1
      simp [h1.1]
    have hrest : noTwoSep ((c :: cs) ++ l2) = true := sepFree_noTwoSep_append _ _ h1 h2
    show noTwoSep (s :: c :: (cs ++ l2)) = true
    simp [noTwoSep, hc]
    exact hrest

theorem replaceRuns_eq_map (l : List Char) (h : noTwoSep l = true) :
    replaceRuns l = l.map charRep := by
  induction l with
  | nil => rfl
  | cons c cs ih =>
    by_cases hc : sepChar c = true
    · cases cs with
      | nil => simp [replaceRuns, skipSeps, hc, charRep]
      | cons d r =>
        have hd : sepChar d = false := by
          simp [noTwoSep, hc] at h
          simp [h.1]
        have hcs : noTwoSep (d :: r) = true := noTwoSep_tail _ _ h
        have hskip : skipSeps (d :: r) = replaceRuns (d :: r) := by
          simp [skipSeps, replaceRuns, hd]
        have hr : replaceRuns r = List.map charRep r := by
          have h2 := ih hcs
          simp [replaceRuns, hd, charRep] at h2
          exact h2
        simp [replaceRuns, hc, charRep, hskip, hd, hr]
    · simp at hc
      have hcs : noTwoSep cs = true := noTwoSep_tail _ _ h
      simp [replaceRuns, hc, charRep, ih hcs]

theorem sepChar_digitChar (n : Nat) : sepChar (digitChar n) = false := by
  have h10 : n % 10 = 0 ∨ n % 10 = 1 ∨ n % 10 = 2 ∨ n % 10 = 3 ∨ n % 10 = 4 ∨ n % 10 = 5
      ∨ n % 10 = 6 ∨ n % 10 = 7 ∨ n % 10 = 8 ∨ n % 10 = 9 := by omega
  unfold digitChar
  rcases h10 with h | h | h | h | h | h | h | h | h | h <;> rw [h] <;> decide

theorem sepFree_natCharsAux (fuel n : Nat) : sepFree (natCharsAux fuel n) = true := by
  induction fuel generalizing n with
  | zero => rfl
  | succ f ih =>
    by_cases h : n < 10
    · simp [natCharsAux, h, sepFree, sepChar_digitChar]
    · have hh := ih (n / 10)
      simp [sepFree] at hh
      simp [natCharsAux, h, sepFree, List.all_append, sepChar_digitChar]
      exact hh

theorem sepFree_padZeros (w n : Nat) : sepFree (padZeros w (natChars n)) = true := by
  have h1 : sepFree (natChars n) = true := sepFree_natCharsAux _ _
  have h0 : sepFree (List.replicate (w - (natChars n).length) '0') = true := by
    simp [sepFree, List.all_eq_true]
    exact Or.inr (by decide)
  rw [padZeros, sepFree_append, h0, h1]
  rfl

theorem sepFree_pad2 (n : Nat) : sepFree (pad2 n) = true := sepFree_padZeros 2 n
theorem sepFree_pad3 (n : Nat) : sepFree (pad3 n) = true := sepFree_padZeros 3 n
theorem sepFree_pad4 (n : Nat) : sepFree (pad4 n) = true := sepFree_padZeros 4 n

theorem natChars_ne_nil (n : Nat) : natChars n ≠ [] := by
  unfold natChars natCharsAux
  by_cases h : n < 10 <;> simp [h]

theorem padZeros_ne_nil (w n : Nat) : padZeros w (natChars n) ≠ [] := by
  simp [padZeros, natChars_ne_nil n]

theorem pad2_ne_nil (n : Nat) : pad2 n ≠ [] := padZeros_ne_nil 2 n
theorem pad3_ne_nil (n : Nat) : pad3 n ≠ [] := padZeros_ne_nil 3 n

theorem noTwoSep_iso (t : Timestamp) : noTwoSep (isoChars t) = true := by
  have hdash : sepChar '-' = false := by decide
  have hT : sepChar 'T' = false := by decide
  unfold isoChars
  apply sepFree_noTwoSep_append
  · simp [sepFree_append, sepFree_cons, sepFree_pad2, sepFree_pad4, hdash, hT]
  · apply sep_block _ _ _ (sepFree_pad2 t.minute) (pad2_ne_nil t.minute)
    apply sep_block _ _ _ (sepFree_pad2 t.second) (pad2_ne_nil t.second)
    apply sep_block _ _ _ (sepFree_pad3 t.milli) (pad3_ne_nil t.milli) (by decide)

theorem tsReplace_iso (t : Timestamp) :
    tsReplace (toISOString t) = (⟨(isoChars t).map charRep⟩ : String) :=
  congrArg String.mk (replaceRuns_eq_map _ (noTwoSep_iso t))

/-- C8: for every configured prefix and every instant, the artifact name
is the prefix, a dash, the ISO8601 representation of the instant with the
characters `:` and `.` each replaced by `-`, and the suffix `.tar.gz`; in
particular the documented example instant yields the documented name.  The
source regex replaces maximal runs of `:` and `.` by one dash, which on
ISO strings (where separators are never adjacent) coincides with the
per-character replacement of the specification. -/
theorem backup_filename_format (pfx : String) (t : Timestamp) :
    backupFilename pfx t = pfx ++ "-" ++ (⟨(isoChars t).map charRep⟩ : String) ++ ".tar.gz"
    ∧ backupFilename "backup" ⟨2025, 1, 2, 3, 4, 5, 678⟩
        = "backup-2025-01-02T03-04-05-678Z.tar.gz" := by
  constructor
  · unfold backupFilename
    rw [tsReplace_iso]
  · decide


/-! ## C10: credential-safe logging projection -/

theorem takeWhile_append_all (p : Char → Bool) (l1 l2 : List Char)
    (h : ∀ c ∈ l1, p c = true) :
    (l1 ++ l2).takeWhile p = l1 ++ l2.takeWhile p := by
  induction l1 with
  | nil => rfl
  | cons c cs ih =>
    simp only [List.cons_append, List.takeWhile_cons, h c (by simp)]
    rw [ih (fun d hd => h d (by simp [hd]))]
    simp

theorem takeWhile_cons_false (p : Char → Bool) (c : Char) (l : List Char)
    (h : p c = false) : (c :: l).takeWhile p = [] := by
  simp [List.takeWhile_cons, h]

theorem takeWhile_all (p : Char → Bool) (l : List Char) (h : ∀ c ∈ l, p c = true) :
    l.takeWhile p = l := by
  have h2 := takeWhile_append_all p l [] h
  simpa using h2

theorem afterLast_not_mem (c : Char) (l : List Char) (h : c ∉ l) : afterLast c l = l := by
  unfold afterLast
  rw [takeWhile_all]
  · exact List.reverse_reverse l
  · intro d hd
    have hdl : d ∈ l := List.mem_reverse.mp hd
    simp
    exact fun he => h (he ▸ hdl)

theorem afterLast_append (c : Char) (l1 l2 : List Char) (h : c ∉ l2) :
    afterLast c (l1 ++ c :: l2) = l2 := by
  unfold afterLast
  rw [List.reverse_append]
  have h1 : (c :: l2).reverse = l2.reverse ++ [c] := by simp
  rw [h1, List.append_assoc]
  rw [takeWhile_append_all _ _ _ (fun d hd => by
    have hdl : d ∈ l2 := List.mem_reverse.mp hd
    simp
    exact fun he => h (he ▸ hdl))]
  rw [show ([c] ++ l1.reverse) = c :: l1.reverse from rfl]
  rw [takeWhile_cons_false _ _ _ (by simp)]
  simp

theorem contains_eq_false_of (l : List Char) (c : Char) (h : c ∉ l) :
    l.contains c = false := by simpa using h

theorem splitPort_no_colon (hp : List Char) (h : ':' ∉ hp) : splitPort hp = some (hp, []) := by
  unfold splitPort
  rw [contains_eq_false_of _ _ h]
  simp

theorem normalizePort_id (p : List Char) (h : p.head? ≠ some '0') : normalizePort p = p := by
  unfold normalizePort
  cases p with
  | nil => rfl
  | cons c cs =>
    have hc : (c == '0') = false := by
      simp at h
      simpa using h
    simp [List.dropWhile_cons, hc]

theorem isDigitC_ne_colon (c : Char) (h : isDigitC c = true) : c ≠ ':' := by
  intro he
  subst he
  simp [isDigitC] at h

theorem splitPort_with_port (host port : List Char)
    (hpd : port.all isDigitC = true) (hz : port.head? ≠ some '0') :
    splitPort (host ++ ':' :: port) = some (host, port) := by
  have hcp : ':' ∉ port := by
    intro hm
    exact isDigitC_ne_colon ':' (by simp [List.all_eq_true] at hpd; exact hpd ':' hm) rfl
  have hc : (host ++ ':' :: port).contains ':' = true := by simp
  have ha : afterLast ':' (host ++ ':' :: port) = port := afterLast_append ':' host port hcp
  unfold splitPort
  rw [hc]
  simp only [if_true]
  rw [ha]
  rw [hpd]
  simp only [if_true]
  have hlen : (host ++ ':' :: port).length - port.length - 1 = host.length := by
    simp [List.length_append]
    omega
  rw [hlen]
  have ht : (host ++ ':' :: port).take host.length = host := by
    have := List.take_left host (':' :: port)
    simpa using this
  rw [ht, normalizePort_id port hz]


theorem stripScheme_skip (c : Char) (l : List Char) (h : c ≠ ':') :
    stripSchemeSep (c :: l) = stripSchemeSep l := by
  unfold stripSchemeSep
  have hneg : ¬(c = ':' ∧ List.take 2 l = ['/', '/']) := fun hc => h hc.1
  rw [if_neg hneg]
  cases l <;> rfl

theorem stripScheme_hit (l : List Char) : stripSchemeSep (':' :: '/' :: '/' :: l) = some l := by
  unfold stripSchemeSep
  rw [if_pos ⟨rfl, rfl⟩]
  rfl

theorem stripScheme_scheme (t : List Char) :
    stripSchemeSep (schemeChars ++ t) = some t := by
  show stripSchemeSep
    ('p' :: 'o' :: 's' :: 't' :: 'g' :: 'r' :: 'e' :: 's' :: 'q' :: 'l' :: ':' :: '/' :: '/' :: t)
    = some t
  rw [stripScheme_skip _ _ (by decide), stripScheme_skip _ _ (by decide),
    stripScheme_skip _ _ (by decide), stripScheme_skip _ _ (by decide),
    stripScheme_skip _ _ (by decide), stripScheme_skip _ _ (by decide),
    stripScheme_skip _ _ (by decide), stripScheme_skip _ _ (by decide),
    stripScheme_skip _ _ (by decide), stripScheme_skip _ _ (by decide)]
  exact stripScheme_hit t

theorem mkConn_data (cred : Option (String × String)) (host port db : String) :
    (mkConn cred host port db).data
      = schemeChars
        ++ (credChars cred ++ (host.data ++ (portChars port ++ ('/' :: db.data)))) := by
  rcases cred with _ | ⟨u, p⟩ <;>
  by_cases hp : port = "" <;>
  simp [mkConn, credChars, portChars, hp, schemeChars, String.data_append]


theorem credOkChar_notAuthEnd (c : Char) (h : credOkChar c = true) : notAuthEnd c = true := by
  simp [credOkChar] at h
  simp [notAuthEnd]
  tauto

theorem hostOkChar_notAuthEnd (c : Char) (h : hostOkChar c = true) : notAuthEnd c = true := by
  simp [hostOkChar] at h
  simp [notAuthEnd]
  tauto

theorem isDigitC_notAuthEnd (c : Char) (h : isDigitC c = true) : notAuthEnd c = true := by
  have h1 : c ≠ '/' := fun he => by subst he; simp [isDigitC] at h
  have h2 : c ≠ '?' := fun he => by subst he; simp [isDigitC] at h
  have h3 : c ≠ '#' := fun he => by subst he; simp [isDigitC] at h
  simp [notAuthEnd]
  tauto

theorem isDigitC_ne_at (c : Char) (h : isDigitC c = true) : c ≠ '@' := by
  intro he
  subst he
  simp [isDigitC] at h

theorem dbOkChar_notPathEnd (c : Char) (h : dbOkChar c = true) : notPathEnd c = true := by
  simp [dbOkChar] at h
  simp [notPathEnd]
  tauto

theorem portOk_cases (port : String) (hp : portOkStr port = true) :
    port = "" ∨ (port.data.all isDigitC = true ∧ port.data.head? ≠ some '0') := by
  by_cases hpe : port = ""
  · exact Or.inl hpe
  · simp [portOkStr, hpe] at hp
    refine Or.inr ⟨by simp [List.all_eq_true]; exact hp.1, by simpa using hp.2⟩

theorem portChars_mem (port : String) (hp : portOkStr port = true) :
    ∀ c ∈ portChars port, c = ':' ∨ isDigitC c = true := by
  intro c hm
  by_cases hpe : port = ""
  · subst hpe
    simp [portChars] at hm
  · simp only [portChars, if_neg hpe] at hm
    rcases List.mem_cons.mp hm with h1 | h2
    · exact Or.inl h1
    · right
      rcases portOk_cases port hp with hpe2 | hpp
      · exact absurd hpe2 hpe
      · have hpp1 : ∀ x ∈ port.data, isDigitC x = true := by
          simpa [List.all_eq_true] using hpp.1
        exact hpp1 c h2

theorem credChars_mem (cred : Option (String × String)) (hcred : credOk cred = true) :
    ∀ c ∈ credChars cred, credOkChar c = true ∨ c = ':' ∨ c = '@' := by
  intro c hm
  rcases cred with _ | ⟨u, pw⟩
  · simp [credChars] at hm
  · simp [credOk, List.all_eq_true] at hcred
    simp [credChars] at hm
    rcases hm with hm | h1 | hm | h1
    · exact Or.inl (hcred.1 c hm)
    · exact Or.inr (Or.inl h1)
    · exact Or.inl (hcred.2 c hm)
    · exact Or.inr (Or.inr h1)

theorem authority_ok (cred : Option (String × String)) (host port : String)
    (hcred : credOk cred = true) (hh : host.data.all hostOkChar = true)
    (hp : portOkStr port = true) :
    ∀ c ∈ credChars cred ++ (host.data ++ portChars port), notAuthEnd c = true := by
  intro c hcm
  have hhost : ∀ c ∈ host.data, hostOkChar c = true := by
    simpa [List.all_eq_true] using hh
  rcases List.mem_append.mp hcm with hm | hm
  · rcases credChars_mem cred hcred c hm with h1 | rfl | rfl
    · exact credOkChar_notAuthEnd c h1
    · decide
    · decide
  · rcases List.mem_append.mp hm with hm2 | hm2
    · exact hostOkChar_notAuthEnd c (hhost c hm2)
    · rcases portChars_mem port hp c hm2 with rfl | hdig
      · decide
      · exact isDigitC_notAuthEnd c hdig

theorem no_at_hostport (host port : String) (hh : host.data.all hostOkChar = true)
    (hp : portOkStr port = true) : '@' ∉ host.data ++ portChars port := by
  intro hm
  rcases List.mem_append.mp hm with hm2 | hm2
  · have h2 : hostOkChar '@' = true := by
      have hhost : ∀ c ∈ host.data, hostOkChar c = true := by
        simpa [List.all_eq_true] using hh
      exact hhost '@' hm2
    simp [hostOkChar] at h2
  · rcases portChars_mem port hp '@' hm2 with h1 | h2
    · exact absurd h1 (by decide)
    · exact isDigitC_ne_at '@' h2 rfl

set_option maxHeartbeats 1000000 in
theorem parse_mkConn (cred : Option (String × String)) (host port db : String)
    (hcred : credOk cred = true) (hh : host.data.all hostOkChar = true)
    (hp : portOkStr port = true) (hd : db.data.all dbOkChar = true) :
    parseURL (mkConn cred host port db)
      = some ⟨host.data, port.data, '/' :: db.data, []⟩ := by
  have hdb : ∀ c ∈ db.data, dbOkChar c = true := by
    simpa [List.all_eq_true] using hd
  have hhc : ':' ∉ host.data := by
    intro hm
    have h2 : hostOkChar ':' = true := by
      have hhost : ∀ c ∈ host.data, hostOkChar c = true := by
        simpa [List.all_eq_true] using hh
      exact hhost ':' hm
    simp [hostOkChar] at h2
  have hA := authority_ok cred host port hcred hh hp
  have hnoAt := no_at_hostport host port hh hp
  have hportSplit : splitPort (host.data ++ portChars port) = some (host.data, port.data) := by
    by_cases hpe : port = ""
    · subst hpe
      have hpc : portChars "" = [] := by simp [portChars]
      rw [hpc, List.append_nil, splitPort_no_colon _ hhc]
    · rcases portOk_cases port hp with hpe2 | hpp
      · exact absurd hpe2 hpe
      · simp only [portChars, if_neg hpe]
        exact splitPort_with_port host.data port.data hpp.1 hpp.2
  have hafterlast : afterLast '@' (credChars cred ++ (host.data ++ portChars port))
      = host.data ++ portChars port := by
    rcases cred with _ | ⟨u, pw⟩
    · simp only [credChars, List.nil_append]
      exact afterLast_not_mem _ _ hnoAt
    · have heq : credChars (some (u, pw)) ++ (host.data ++ portChars port)
          = (u.data ++ ':' :: pw.data) ++ '@' :: (host.data ++ portChars port) := by
        simp [credChars]
      rw [heq]
      exact afterLast_append _ _ _ hnoAt
  have hassoc : credChars cred ++ (host.data ++ (portChars port ++ ('/' :: db.data)))
      = (credChars cred ++ (host.data ++ portChars port)) ++ ('/' :: db.data) := by
    simp [List.append_assoc]
  have htake : ((credChars cred ++ (host.data ++ portChars port)) ++ ('/' :: db.data)).takeWhile
        notAuthEnd = credChars cred ++ (host.data ++ portChars port) := by
    rw [takeWhile_append_all _ _ _ hA, takeWhile_cons_false _ _ _ (by decide)]
    simp
  have hpath : ('/' :: db.data).takeWhile notPathEnd = '/' :: db.data := by
    rw [takeWhile_all]
    intro c hcm
    rcases List.mem_cons.mp hcm with rfl | hm
    · decide
    · exact dbOkChar_notPathEnd c (hdb c hm)
  unfold parseURL
  rw [mkConn_data, hassoc]
  simp only [parseURLChars, stripScheme_scheme]
  rw [htake]
  rw [List.drop_left]
  rw [hafterlast]
  rw [hportSplit]
  simp only []
  rw [hpath]
  rw [List.drop_length]

theorem mkConn_no_qmark (cred : Option (String × String)) (host port db : String)
    (hcred : credOk cred = true) (hh : host.data.all hostOkChar = true)
    (hp : portOkStr port = true) (hd : db.data.all dbOkChar = true) :
    '?' ∉ (mkConn cred host port db).data := by
  rw [mkConn_data]
  intro hm
  rcases List.mem_append.mp hm with hs | hm1
  · exact absurd hs (by decide)
  · have hm1b : '?' ∈ (credChars cred ++ (host.data ++ portChars port)) ++ ('/' :: db.data) := by
      simpa [List.append_assoc] using hm1
    rcases List.mem_append.mp hm1b with hm2 | hm3
    · have h2 := authority_ok cred host port hcred hh hp '?' hm2
      simp [notAuthEnd] at h2
    · rcases List.mem_cons.mp hm3 with h1 | hm4
      · exact absurd h1 (by decide)
      · have hdb : ∀ c ∈ db.data, dbOkChar c = true := by
          simpa [List.all_eq_true] using hd
        have h2 := hdb '?' hm4
        simp [dbOkChar] at h2


theorem hasSubstr_false_of_head_not_mem (q : Char) (ps l : List Char) (h : q ∉ l) :
    hasSubstr (q :: ps) l = false := by
  induction l with
  | nil => rfl
  | cons c cs ih =>
    simp at h
    have hqc : (q == c) = false := by simpa using h.1
    simp [hasSubstr, List.isPrefixOf, hqc]
    exact ih h.2

set_option maxHeartbeats 1000000 in
theorem extract_mkConn (cred : Option (String × String)) (host port db : String)
    (hcred : credOk cred = true) (hh : host.data.all hostOkChar = true)
    (hp : portOkStr port = true) (hd : db.data.all dbOkChar = true) :
    extractDatabaseHost (mkConn cred host port db)
      = ⟨host.data ++ ':' :: ((if port = "" then "5432".data else port.data)
          ++ '/' :: db.data)⟩ := by
  have hq : strIncludes (mkConn cred host port db) "?host=" = false := by
    have h1 : "?host=".data = '?' :: "host=".data := rfl
    unfold strIncludes
    rw [h1]
    exact hasSubstr_false_of_head_not_mem '?' _ _
      (mkConn_no_qmark cred host port db hcred hh hp hd)
  have hslash : replaceFirstChars ('/' :: db.data) ['/'] [] = db.data := by
    simp [replaceFirstChars, List.isPrefixOf]
  unfold extractDatabaseHost
  rw [parse_mkConn cred host port db hcred hh hp hd]
  simp only [hq, Bool.false_eq_true, if_false]
  by_cases hpe : port = ""
  · subst hpe
    simp [hslash]
  · have hne : port.data ≠ [] := by
      intro he
      apply hpe
      cases port
      simp_all
    have hie : port.data.isEmpty = false := by
      cases hd2 : port.data with
      | nil => exact absurd hd2 hne
      | cons a l => rfl
    simp [hie, hslash, hpe]

/-- C10: for any two connection strings that differ only in the embedded
credentials, `extractDatabaseHost` produces the same loggable projection,
and that projection is exactly host, port (defaulted to 5432 when absent)
and database name — the credentials never influence or enter the output.
Stated over `mkConn`-shaped standard connection strings whose components
use unreserved characters, the shapes the source function handles. -/
theorem extractDatabaseHost_credential_safe
    (c1 c2 : Option (String × String)) (host port db : String)
    (h1 : credOk c1 = true) (h2 : credOk c2 = true)
    (hh : host.data.all hostOkChar = true) (hp : portOkStr port = true)
    (hd : db.data.all dbOkChar = true) :
    extractDatabaseHost (mkConn c1 host port db)
        = extractDatabaseHost (mkConn c2 host port db)
    ∧ extractDatabaseHost (mkConn c1 host port db)
        = ⟨host.data ++ ':' :: ((if port = "" then "5432".data else port.data)
            ++ '/' :: db.data)⟩ := by
  have e1 := extract_mkConn c1 host port db h1 hh hp hd
  have e2 := extract_mkConn c2 host port db h2 hh hp hd
  exact ⟨e1.trans e2.symm, e1⟩

theorem extractDatabaseHost_credential_safe_witness :
    extractDatabaseHost (mkConn (some ("alice", "hunter2")) "dbhost" "6543" "mydb")
        = extractDatabaseHost (mkConn (some ("bob", "pw")) "dbhost" "6543" "mydb")
    ∧ extractDatabaseHost (mkConn (some ("alice", "hunter2")) "dbhost" "6543" "mydb")
        = "dbhost:6543/mydb" := by
  have h := extractDatabaseHost_credential_safe (some ("alice", "hunter2")) (some ("bob", "pw"))
    "dbhost" "6543" "mydb" (by decide) (by decide) (by decide) (by decide) (by decide)
  exact ⟨h.1, h.2.trans (by decide)⟩

end PgS3
